import Mathlib

/-!
# Verification of the RayTracing renderer core

Shallow embedding of the Rust sources (`src/ray.rs`, `src/vec3.rs`,
`src/camera.rs`, `src/main.rs`) of the `RayTracing1` repository, together
with proofs settling the frozen claims about the natural-language spec.

Modelling conventions:
* `f32` values flowing through the geometric pipeline are idealised as real
  numbers (`ℝ`): rounding error is ignored, `sqrt` is `Real.sqrt`.  Claims
  about IEEE special values (`NaN`, the infinities) are settled against a
  separate computable model `F32` that represents a float as either `nan`,
  an infinity, or a finite rational, with the IEEE comparison semantics
  (every comparison involving `nan` is false).
* The camera's integer/size arithmetic is embedded over `ℚ`/`ℤ` where the
  Rust code uses `f32`/`i32`; the `as i32` cast is truncation toward zero
  (its saturation at the `i32` range is irrelevant for the values involved
  and is not modelled).
* Rust functions that mutate an `&mut HitRecord` and return `bool` are
  embedded as functions returning `Bool × HitRecord`, the second component
  being the record left in the caller's variable after the call.
-/

/-! ## A computable model of f32 comparison semantics

Used for the claims about `NaN` and the infinite interval bounds
(`Interval::clamp` on `NaN`, `EMPTY_INTERVAL`/`UNIVERSE_INTERVAL`).
A float is `nan`, one of the two infinities, or a finite value (idealised
as a rational). -/

/-- A model of an `f32` value: `NaN`, `-inf`, `+inf`, or a finite value. -/
inductive F32 where
  | nan : F32
  | ninf : F32
  | pinf : F32
  | fin (q : ℚ) : F32
deriving DecidableEq

/-- IEEE `<` on the `F32` model: any comparison involving `NaN` is false. -/
def F32.flt : F32 → F32 → Bool
  | .nan, _ => false
  | _, .nan => false
  | .ninf, .ninf => false
  | .ninf, _ => true
  | .pinf, _ => false
  | .fin _, .ninf => false
  | .fin _, .pinf => true
  | .fin a, .fin b => a < b

/-- IEEE `≤` on the `F32` model: any comparison involving `NaN` is false. -/
def F32.fle : F32 → F32 → Bool
  | .nan, _ => false
  | _, .nan => false
  | .ninf, _ => true
  | .pinf, .pinf => true
  | .pinf, _ => false
  | .fin _, .ninf => false
  | .fin _, .pinf => true
  | .fin a, .fin b => a ≤ b

/-- `Interval` (src/ray.rs lines 10-13) at the f32-comparison level of
modelling: a pair of `F32` bounds. -/
structure IntervalF where
  min : F32
  max : F32
deriving DecidableEq

/-- `Interval::contains` (src/ray.rs lines 31-33): `min <= x && x <= max`. -/
def IntervalF.containsF (i : IntervalF) (x : F32) : Bool :=
  i.min.fle x && x.fle i.max

/-- `Interval::surrounds` (src/ray.rs lines 35-37): `min < x && x < max`. -/
def IntervalF.surroundsF (i : IntervalF) (x : F32) : Bool :=
  i.min.flt x && x.flt i.max

/-- `Interval::clamp` (src/ray.rs lines 39-47):
`if x < min { min } else if x > max { max } else { x }`
(`x > max` is `max < x`). -/
def IntervalF.clampF (i : IntervalF) (x : F32) : F32 :=
  if x.flt i.min then i.min
  else if i.max.flt x then i.max
  else x

/-- `EMPTY_INTERVAL` (src/ray.rs lines 50-53): `min = +inf`, `max = -inf`. -/
def EMPTY_INTERVAL : IntervalF := ⟨.pinf, .ninf⟩

/-- `UNIVERSE_INTERVAL` (src/ray.rs lines 55-58).  As written in the source
its bounds are `min = f32::INFINITY`, `max = f32::NEG_INFINITY` — identical
to `EMPTY_INTERVAL`, not the all-containing interval. -/
def UNIVERSE_INTERVAL : IntervalF := ⟨.pinf, .ninf⟩

/-! ## Camera size arithmetic (src/camera.rs)

Embedded over `ℚ` (for the f32 configuration values) and `ℤ` (for the
i32 sizes). -/

/-- Truncation toward zero: the value of a Rust `as i32` cast applied to a
nonnegative-or-negative finite float (saturation at the i32 range is not
modelled; it is never reached here). -/
def truncQ (q : ℚ) : ℤ :=
  if 0 ≤ q then ⌊q⌋ else ⌈q⌉

/-- The spec's height formula, modelled from the spec's words: rounding to
the NEAREST integer (`max(1, round(width/aspect_ratio))`).  Kept separate
from the code's truncating cast so the two can be compared. -/
def specRoundHeight (width : ℤ) (ratio : ℚ) : ℤ :=
  max 1 (round ((width : ℚ) / ratio))

/-- A rational 3-vector, used only for the camera's derived viewport
geometry (src/camera.rs lines 76-91), where all arithmetic is exact. -/
structure Vec3Q where
  x : ℚ
  y : ℚ
  z : ℚ
deriving DecidableEq

instance : Add Vec3Q := ⟨fun a b => ⟨a.x + b.x, a.y + b.y, a.z + b.z⟩⟩

instance : Sub Vec3Q := ⟨fun a b => ⟨a.x - b.x, a.y - b.y, a.z - b.z⟩⟩

/-- Scalar multiplication `Vec3 * f32` for the rational camera vectors. -/
def Vec3Q.mulQ (v : Vec3Q) (k : ℚ) : Vec3Q := ⟨v.x * k, v.y * k, v.z * k⟩

/-- Scalar division `Vec3 / f32` for the rational camera vectors. -/
def Vec3Q.divQ (v : Vec3Q) (k : ℚ) : Vec3Q := ⟨v.x / k, v.y / k, v.z / k⟩

/-- The `Camera` struct (src/camera.rs lines 12-23).  The field `aspect`
embeds the source field named `aspect_ratio`; the remaining fields keep
the source's names. -/
structure Camera where
  aspect : ℚ
  img_width : ℤ
  samples_per_pixel : ℤ
  max_depth : ℤ
  pixel_samples_scale : ℚ
  img_height : ℤ
  center : Vec3Q
  pixel00_loc : Vec3Q
  pixel_delta_u : Vec3Q
  pixel_delta_v : Vec3Q
deriving DecidableEq

/-- `Camera::default` (src/camera.rs lines 25-40). -/
def Camera.defaultCam : Camera :=
  { aspect := 1
    img_width := 100
    img_height := 1
    center := ⟨0, 0, 0⟩
    pixel00_loc := ⟨0, 0, 0⟩
    pixel_delta_u := ⟨0, 0, 0⟩
    pixel_delta_v := ⟨0, 0, 0⟩
    samples_per_pixel := 10
    pixel_samples_scale := 0
    max_depth := 10 }

/-- `Camera::initialize` (src/camera.rs lines 65-92).  Note the first
statement of the source: `self.img_width = 400;` — it overwrites whatever
image width the caller configured before `render` was called. -/
def Camera.init (c : Camera) : Camera :=
  let img_width : ℤ := 400
  let img_height : ℤ := max 1 (truncQ ((img_width : ℚ) / c.aspect))
  let pixel_samples_scale : ℚ := 1 / (c.samples_per_pixel : ℚ)
  let focal_length : ℚ := 1
  let viewport_height : ℚ := 2
  let viewport_width : ℚ := viewport_height * ((img_width : ℚ) / (img_height : ℚ))
  let center : Vec3Q := ⟨0, 0, 0⟩
  let viewport_u : Vec3Q := ⟨viewport_width, 0, 0⟩
  let viewport_v : Vec3Q := ⟨0, -viewport_height, 0⟩
  let pixel_delta_u := viewport_u.divQ (img_width : ℚ)
  let pixel_delta_v := viewport_v.divQ (img_height : ℚ)
  let viewport_upper_left :=
    center - (⟨0, 0, focal_length⟩ : Vec3Q) - viewport_u.divQ 2 - viewport_v.divQ 2
  let pixel00_loc := viewport_upper_left + (pixel_delta_u + pixel_delta_v).mulQ (1/2)
  { c with
    img_width := img_width
    img_height := img_height
    pixel_samples_scale := pixel_samples_scale
    center := center
    pixel00_loc := pixel00_loc
    pixel_delta_u := pixel_delta_u
    pixel_delta_v := pixel_delta_v }

/-- The `"P3\n{} {}\n255"` header emitted by `Camera::render`
(src/camera.rs line 46): it prints `self.img_width` and `self.img_height`
AFTER `self.initialize()` has run. -/
def Camera.renderHeaderSize (c : Camera) : ℤ × ℤ :=
  ((Camera.init c).img_width, (Camera.init c).img_height)

/-- The number of pixels `Camera::render` emits per row: the bound of the
inner `for i in 0..self.img_width` loop (src/camera.rs line 52), again
taken after `self.initialize()` has run. -/
def Camera.renderRowPixels (c : Camera) : ℤ :=
  (Camera.init c).img_width

/-! ## The geometric pipeline over ℝ (src/vec3.rs, src/ray.rs)

Finite f32 arithmetic idealised as exact real arithmetic. -/

noncomputable section

/-- `Vec3` (src/vec3.rs lines 8-13), components idealised as reals. -/
structure Vec3R where
  x : ℝ
  y : ℝ
  z : ℝ

instance : Add Vec3R := ⟨fun a b => ⟨a.x + b.x, a.y + b.y, a.z + b.z⟩⟩

instance : Sub Vec3R := ⟨fun a b => ⟨a.x - b.x, a.y - b.y, a.z - b.z⟩⟩

instance : Neg Vec3R := ⟨fun a => ⟨-a.x, -a.y, -a.z⟩⟩

/-- `impl Mul<f32> for Vec3` (src/vec3.rs lines 47-57). -/
instance : HMul Vec3R ℝ Vec3R := ⟨fun v k => ⟨v.x * k, v.y * k, v.z * k⟩⟩

/-- `impl Div<f32> for Vec3` (src/vec3.rs lines 59-69). -/
instance : HDiv Vec3R ℝ Vec3R := ⟨fun v k => ⟨v.x / k, v.y / k, v.z / k⟩⟩

@[simp] theorem Vec3R.add_def (a b : Vec3R) : a + b = ⟨a.x + b.x, a.y + b.y, a.z + b.z⟩ := rfl

@[simp] theorem Vec3R.sub_def (a b : Vec3R) : a - b = ⟨a.x - b.x, a.y - b.y, a.z - b.z⟩ := rfl

@[simp] theorem Vec3R.neg_def (a : Vec3R) : -a = ⟨-a.x, -a.y, -a.z⟩ := rfl

@[simp] theorem Vec3R.hmul_def (a : Vec3R) (k : ℝ) : a * k = ⟨a.x * k, a.y * k, a.z * k⟩ := rfl

@[simp] theorem Vec3R.hdiv_def (a : Vec3R) (k : ℝ) : a / k = ⟨a.x / k, a.y / k, a.z / k⟩ := rfl

/-- `Vec3::zero` (src/vec3.rs lines 140-146). -/
def Vec3R.zero : Vec3R := ⟨0, 0, 0⟩

/-- `Vec3::squared_length` (src/vec3.rs lines 160-162). -/
def Vec3R.squared_length (v : Vec3R) : ℝ := v.x * v.x + v.y * v.y + v.z * v.z

/-- `Vec3::length` (src/vec3.rs lines 156-158). -/
noncomputable def Vec3R.length (v : Vec3R) : ℝ := Real.sqrt v.squared_length

/-- `Vec3::dot` (src/vec3.rs lines 164-166). -/
def Vec3R.dot (v w : Vec3R) : ℝ := v.x * w.x + v.y * w.y + v.z * w.z

/-- `Vec3::unit` (src/vec3.rs lines 176-178). -/
noncomputable def Vec3R.unit (v : Vec3R) : Vec3R := v / v.length

/-- `Ray` (src/ray.rs lines 60-63). -/
structure RayR where
  origin : Vec3R
  direction : Vec3R

/-- `Ray::at` (src/ray.rs lines 70-72): `origin + direction * t`. -/
def RayR.at (r : RayR) (t : ℝ) : Vec3R := r.origin + r.direction * t

/-- `Interval` (src/ray.rs lines 10-13) with finite real bounds, as used
along the hit-testing path. -/
structure IntervalR where
  min : ℝ
  max : ℝ

/-- `Interval::new` (src/ray.rs lines 23-25). -/
def IntervalR.new (lo hi : ℝ) : IntervalR := ⟨lo, hi⟩

/-- `Interval::contains` (src/ray.rs lines 31-33). -/
def IntervalR.contains (i : IntervalR) (x : ℝ) : Prop := i.min ≤ x ∧ x ≤ i.max

/-- `Interval::surrounds` (src/ray.rs lines 35-37): `min < x && x < max`. -/
def IntervalR.surrounds (i : IntervalR) (x : ℝ) : Prop := i.min < x ∧ x < i.max

noncomputable instance (i : IntervalR) (x : ℝ) : Decidable (i.surrounds x) :=
  instDecidableAnd

/-- `Interval::clamp` (src/ray.rs lines 39-47) over real inputs. -/
noncomputable def IntervalR.clamp (i : IntervalR) (x : ℝ) : ℝ :=
  if x < i.min then i.min
  else if x > i.max then i.max
  else x

/-- `HitRecord` (src/ray.rs lines 75-81). -/
structure HitRecordR where
  point : Vec3R
  normal : Vec3R
  t : ℝ
  front_face : Bool

/-- `#[derive(Default)]` for `HitRecord`: zero vectors, `t = 0.0`,
`front_face = false`. -/
def HitRecordR.default : HitRecordR := ⟨Vec3R.zero, Vec3R.zero, 0, false⟩

/-- `HitRecord::set_face_normal` (src/ray.rs lines 84-90):
`front_face = direction.dot(outward_normal) < 0.0`;
`normal = outward_normal` if front face, `-outward_normal` otherwise. -/
noncomputable def HitRecordR.set_face_normal
    (rec : HitRecordR) (r : RayR) (outward_normal : Vec3R) : HitRecordR :=
  let ff : Bool := decide (r.direction.dot outward_normal < 0)
  { rec with
    front_face := ff
    normal := match ff with
      | true => outward_normal
      | false => -outward_normal }

/-- `Sphere` (src/ray.rs lines 97-100). -/
structure SphereR where
  center : Vec3R
  radius : ℝ

/-- `Sphere::new` (src/ray.rs lines 102-109): the radius is clamped with
`radius.max(0.0)`. -/
def SphereR.newSphere (center : Vec3R) (radius : ℝ) : SphereR :=
  ⟨center, max radius 0⟩

/-- The record-writing block of `Sphere::hit` (src/ray.rs lines 134-137):
`rec.t = root; rec.point = r.at(rec.t);
outward_normal = (rec.point - center) / radius; rec.set_face_normal(...)`. -/
noncomputable def hitRecordFor (s : SphereR) (r : RayR) (root : ℝ) (rec : HitRecordR) :
    HitRecordR :=
  let rec1 := { rec with t := root, point := r.at root }
  let outward_normal := (rec1.point - s.center) / s.radius
  rec1.set_face_normal r outward_normal

/-- `Sphere::hit` (src/ray.rs lines 111-141).  Early `return false`
becomes the `else` branches; the `root` reassignment becomes the inner
`if`. -/
noncomputable def SphereR.hit (s : SphereR) (r : RayR) (ray_t : IntervalR)
    (rec : HitRecordR) : Bool × HitRecordR :=
  let oc := s.center - r.origin
  let a := r.direction.squared_length
  let h := r.direction.dot oc
  let c := oc.squared_length - s.radius * s.radius
  let discriminant := h * h - a * c
  if discriminant < 0 then (false, rec)
  else
    let sqrtd := Real.sqrt discriminant
    let root := (h - sqrtd) / a
    if ray_t.surrounds root then (true, hitRecordFor s r root rec)
    else
      let root2 := (h + sqrtd) / a
      if ray_t.surrounds root2 then (true, hitRecordFor s r root2 rec)
      else (false, rec)

/-- Named forms of the quadratic quantities of `Sphere::hit`, used to state
the claims: `a`, `h`, `c`, the discriminant `h*h - a*c`, and the two
roots `(h ∓ √disc)/a`. -/
def SphereR.quadA (_s : SphereR) (r : RayR) : ℝ := r.direction.squared_length

/-- `h = direction · (center - origin)` of `Sphere::hit`. -/
def SphereR.quadH (s : SphereR) (r : RayR) : ℝ := r.direction.dot (s.center - r.origin)

/-- `c = |center - origin|² - radius²` of `Sphere::hit`. -/
def SphereR.quadC (s : SphereR) (r : RayR) : ℝ :=
  (s.center - r.origin).squared_length - s.radius * s.radius

/-- The discriminant `h*h - a*c` of `Sphere::hit` (src/ray.rs line 118). -/
def SphereR.disc (s : SphereR) (r : RayR) : ℝ :=
  s.quadH r * s.quadH r - s.quadA r * s.quadC r

/-- The smaller candidate root `(h - √disc)/a` (src/ray.rs line 126). -/
noncomputable def SphereR.root1 (s : SphereR) (r : RayR) : ℝ :=
  (s.quadH r - Real.sqrt (s.disc r)) / s.quadA r

/-- The larger candidate root `(h + √disc)/a` (src/ray.rs line 128). -/
noncomputable def SphereR.root2 (s : SphereR) (r : RayR) : ℝ :=
  (s.quadH r + Real.sqrt (s.disc r)) / s.quadA r

/-- `t` solves the sphere's implicit equation along the ray:
`|r.at t - center|² = radius²`. -/
def sphereEqRoot (s : SphereR) (r : RayR) (t : ℝ) : Prop :=
  (r.at t - s.center).squared_length = s.radius * s.radius

/-- One step-state of the loop of `HittableList::hit`
(src/ray.rs lines 176-191): `(hit_anything, closest_so_far, temp_rec, rec)`. -/
def hitLoopState : Type := Bool × ℝ × HitRecordR × HitRecordR

/-- The `for object in &self.objects` loop of `HittableList::hit`
(src/ray.rs lines 182-188), one recursive call per member.  On a member
hit the flag is set, the window's far bound shrinks to `temp_rec.t`, and
`*rec = temp_rec.clone()`. -/
noncomputable def hitLoop (r : RayR) (tmin : ℝ) :
    List SphereR → hitLoopState → hitLoopState
  | [], st => st
  | s :: rest, (flag, closest, temp, rec) =>
    let res := s.hit r (IntervalR.new tmin closest) temp
    if res.1 then hitLoop r tmin rest (true, res.2.t, res.2, res.2)
    else hitLoop r tmin rest (flag, closest, res.2, rec)

/-- `HittableList::hit` (src/ray.rs lines 175-192): the scene aggregate is
the insertion-ordered list of its spheres (the only primitive implementing
`Hittable` in the repository). -/
noncomputable def HittableList.hit (objects : List SphereR) (r : RayR)
    (ray_t : IntervalR) (rec : HitRecordR) : Bool × HitRecordR :=
  let st := hitLoop r ray_t.min objects (false, ray_t.max, HitRecordR.default, rec)
  (st.1, st.2.2.2)

/-! ## Color conversion (src/vec3.rs lines 180-196) -/

/-- `Vec3::linear_to_gamma` (src/vec3.rs lines 180-186):
`if x > 0 { x.sqrt() } else { 0 }`. -/
noncomputable def linear_to_gamma (x : ℝ) : ℝ :=
  if x > 0 then Real.sqrt x else 0

/-- A Rust `as u8` cast of a finite nonnegative-or-negative float:
truncate toward zero and saturate into `[0, 255]`. -/
noncomputable def asU8 (x : ℝ) : ℕ := (min 255 ⌊x⌋).toNat

/-- `Vec3::rgba` (src/vec3.rs lines 188-196): gamma-map each channel,
clamp into `[0.0, 0.999]`, scale by `255.99`, cast to `u8`, alpha 255. -/
noncomputable def Vec3R.rgba (v : Vec3R) : ℕ × ℕ × ℕ × ℕ :=
  let intensity : IntervalR := IntervalR.new 0 0.999
  (asU8 (intensity.clamp (linear_to_gamma v.x) * 255.99),
   asU8 (intensity.clamp (linear_to_gamma v.y) * 255.99),
   asU8 (intensity.clamp (linear_to_gamma v.z) * 255.99),
   255)

/-! ## The recursive diffuse color (src/camera.rs lines 109-126) -/

/-- `Camera::ray_color` (src/camera.rs lines 109-126).  The global RNG
behind `Vec3::random_unit_vec` is modelled as an oracle `scatter` giving
the unit vector drawn at each remaining depth; `f32::INFINITY`, the far
bound of the hit window, is modelled as an arbitrary real parameter
`tMax` (the claims proved about `ray_color` hold for every value of it). -/
noncomputable def ray_color (world : List SphereR) (scatter : ℤ → Vec3R) (tMax : ℝ) :
    RayR → ℤ → Vec3R
  | r, depth =>
    if depth ≤ 0 then Vec3R.zero
    else
      let res := HittableList.hit world r (IntervalR.new 0.001 tMax) HitRecordR.default
      if res.1 then
        let direction := res.2.normal + scatter depth
        ray_color world scatter tMax ⟨res.2.point, direction⟩ (depth - 1) * (0.5 : ℝ)
      else
        let unit_dir := r.direction.unit
        let grad := 0.5 * (unit_dir.y + 1)
        (⟨1, 1, 1⟩ : Vec3R) * (1 - grad) + (⟨0.5, 0.7, 1⟩ : Vec3R) * grad
  termination_by _ depth => depth.toNat
  decreasing_by simp_wf; omega

end

/-! ## Claims C5, C6, C7, C8, C10 -/

/-- `NaN` is `<` nothing. -/
@[simp] theorem F32.nan_flt (m : F32) : F32.flt F32.nan m = false := by
  cases m <;> rfl

/-- Nothing is `<` `NaN`. -/
@[simp] theorem F32.flt_nan (m : F32) : F32.flt m F32.nan = false := by
  cases m <;> rfl

/-- Claim C8: for every interval, `Interval::clamp` applied to `NaN`
returns the input unchanged (`NaN`), because both the comparison against
the lower bound and the comparison against the upper bound are false for
`NaN`. -/
theorem clamp_nan_returns_nan (i : IntervalF) :
    F32.flt F32.nan i.min = false ∧ F32.flt i.max F32.nan = false ∧
    i.clampF F32.nan = F32.nan := by
  refine ⟨F32.nan_flt i.min, F32.flt_nan i.max, ?_⟩
  simp [IntervalF.clampF]

/-- Claim C10: `UNIVERSE_INTERVAL` is defined with `min = +inf` and
`max = -inf` — the same bounds as `EMPTY_INTERVAL` — so every finite
value is neither contained nor surrounded by it. -/
theorem universe_interval_is_empty :
    UNIVERSE_INTERVAL = EMPTY_INTERVAL ∧
    UNIVERSE_INTERVAL.min = F32.pinf ∧ UNIVERSE_INTERVAL.max = F32.ninf ∧
    ∀ q : ℚ, UNIVERSE_INTERVAL.containsF (F32.fin q) = false ∧
      UNIVERSE_INTERVAL.surroundsF (F32.fin q) = false :=
  ⟨rfl, rfl, rfl, fun _ => ⟨rfl, rfl⟩⟩

/-- Claim C5 (code bug): `Camera::initialize` hard-codes
`self.img_width = 400`, so a caller-configured image width of 200 is
ignored: `render` emits a header width of 400 and 400 pixels per row,
not the configured 200. -/
theorem render_ignores_configured_width :
    ({ Camera.defaultCam with img_width := 200 } : Camera).img_width = 200 ∧
    (Camera.renderHeaderSize { Camera.defaultCam with img_width := 200 }).1 = 400 ∧
    Camera.renderRowPixels { Camera.defaultCam with img_width := 200 } = 400 ∧
    (400 : ℤ) ≠ 200 :=
  ⟨rfl, rfl, rfl, by decide⟩

/-- Claim C6, counterexample: with configured width 100 and aspect ratio
9/2, the height used for rendering is `trunc(400 / (9/2)) = 88`, while the
claim's formula `max(1, round(width/aspect_ratio))` gives
`round(100 / (9/2)) = 22`. -/
theorem img_height_not_nearest_round :
    (Camera.init { Camera.defaultCam with aspect := 9/2, img_width := 100 }).img_height = 88 ∧
    specRoundHeight 100 (9/2) = 22 ∧ (88 : ℤ) ≠ 22 := by
  refine ⟨?_, ?_, by decide⟩
  · show max 1 (truncQ ((400 : ℚ) / (9/2))) = 88
    norm_num [truncQ]
  · norm_num [specRoundHeight, round_eq]

/-- Claim C6, amended: the image height used for rendering equals
`max(1, trunc(w / aspect_ratio))` where `w` is the width in effect after
`initialize` (the hard-coded 400) and `trunc` is the truncation toward
zero performed by the `as i32` cast; for a positive aspect ratio the
truncation coincides with the floor. -/
theorem img_height_is_trunc (c : Camera) (h : 0 < c.aspect) :
    (Camera.init c).img_height = max 1 (truncQ ((400 : ℚ) / c.aspect)) ∧
    truncQ ((400 : ℚ) / c.aspect) = ⌊(400 : ℚ) / c.aspect⌋ := by
  refine ⟨rfl, ?_⟩
  unfold truncQ
  rw [if_pos (le_of_lt (div_pos (by norm_num) h))]

/-- Witness for `img_height_is_trunc` at the aspect ratio 16/9 used by
`main`. -/
theorem img_height_is_trunc_witness :
    (Camera.init { Camera.defaultCam with aspect := 16/9 }).img_height
      = max 1 (truncQ ((400 : ℚ) / (16/9))) ∧
    truncQ ((400 : ℚ) / (16/9)) = ⌊(400 : ℚ) / (16/9)⌋ :=
  img_height_is_trunc { Camera.defaultCam with aspect := 16/9 } (by norm_num)

/-- Claim C7: `ray_color` called with remaining depth ≤ 0 returns pure
black `(0,0,0)`, regardless of the scene, the scatter oracle, or the far
bound of the hit window. -/
theorem ray_color_depth_exhausted (world : List SphereR) (scatter : ℤ → Vec3R)
    (tMax : ℝ) (r : RayR) (depth : ℤ) (h : depth ≤ 0) :
    ray_color world scatter tMax r depth = Vec3R.zero := by
  rw [ray_color]
  simp [h]

/-- Witness for `ray_color_depth_exhausted` at depth 0. -/
theorem ray_color_depth_exhausted_witness :
    ray_color [] (fun _ => Vec3R.zero) 100 ⟨Vec3R.zero, ⟨0, 0, 1⟩⟩ 0 = Vec3R.zero :=
  ray_color_depth_exhausted [] (fun _ => Vec3R.zero) 100 ⟨Vec3R.zero, ⟨0, 0, 1⟩⟩ 0 le_rfl

/-! ## Structural lemmas about `Sphere::hit` -/

/-- `Sphere::hit` written with the named quadratic quantities: miss on a
negative discriminant, otherwise the smaller root if strictly surrounded,
else the larger root if strictly surrounded, else miss. -/
theorem SphereR.hit_eq (s : SphereR) (r : RayR) (i : IntervalR) (rec : HitRecordR) :
    s.hit r i rec =
      if s.disc r < 0 then (false, rec)
      else if i.surrounds (s.root1 r) then (true, hitRecordFor s r (s.root1 r) rec)
      else if i.surrounds (s.root2 r) then (true, hitRecordFor s r (s.root2 r) rec)
      else (false, rec) := rfl

/-- The record written on acceptance has `t = root`. -/
@[simp] theorem hitRecordFor_t (s : SphereR) (r : RayR) (root : ℝ) (rec : HitRecordR) :
    (hitRecordFor s r root rec).t = root := rfl

/-- The record written on acceptance has `point = r.at root`. -/
@[simp] theorem hitRecordFor_point (s : SphereR) (r : RayR) (root : ℝ) (rec : HitRecordR) :
    (hitRecordFor s r root rec).point = r.at root := rfl

/-- Every field of the record is overwritten on acceptance, so the written
record does not depend on the record passed in. -/
theorem hitRecordFor_irrel (s : SphereR) (r : RayR) (root : ℝ) (rec rec' : HitRecordR) :
    hitRecordFor s r root rec = hitRecordFor s r root rec' := rfl

/-- The fields written by `set_face_normal`: `point` and `t` untouched,
`front_face` is the comparison, `normal` is oriented by it. -/
theorem set_face_normal_fields (rec : HitRecordR) (r : RayR) (n : Vec3R) :
    (rec.set_face_normal r n).point = rec.point ∧
    (rec.set_face_normal r n).t = rec.t ∧
    (rec.set_face_normal r n).front_face = decide (r.direction.dot n < 0) ∧
    (rec.set_face_normal r n).normal = if r.direction.dot n < 0 then n else -n := by
  unfold HitRecordR.set_face_normal
  refine ⟨rfl, rfl, rfl, ?_⟩
  by_cases h : r.direction.dot n < 0
  · rw [decide_eq_true h, if_pos h]
  · rw [decide_eq_false h, if_neg h]

/-- The normal written on acceptance: the outward normal
`(point - center)/radius` when the ray direction opposes it, its negation
otherwise. -/
theorem hitRecordFor_normal (s : SphereR) (r : RayR) (root : ℝ) (rec : HitRecordR) :
    (hitRecordFor s r root rec).normal =
      if r.direction.dot ((r.at root - s.center) / s.radius) < 0
      then (r.at root - s.center) / s.radius
      else -((r.at root - s.center) / s.radius) :=
  (set_face_normal_fields { rec with t := root, point := r.at root } r
    ((r.at root - s.center) / s.radius)).2.2.2

/-- The front-face flag written on acceptance is the comparison
`direction · outward_normal < 0`. -/
theorem hitRecordFor_front_face (s : SphereR) (r : RayR) (root : ℝ) (rec : HitRecordR) :
    ((hitRecordFor s r root rec).front_face = true ↔
      r.direction.dot ((r.at root - s.center) / s.radius) < 0) := by
  have hf : (hitRecordFor s r root rec).front_face
      = decide (r.direction.dot ((r.at root - s.center) / s.radius) < 0) :=
    (set_face_normal_fields { rec with t := root, point := r.at root } r
      ((r.at root - s.center) / s.radius)).2.2.1
  rw [hf, decide_eq_true_eq]

/-- Expansion of the squared distance from a point of the ray to the
sphere center in terms of the quadratic coefficients. -/
theorem sq_len_at (s : SphereR) (r : RayR) (t : ℝ) :
    (r.at t - s.center).squared_length
      = s.quadA r * t ^ 2 - 2 * s.quadH r * t + (s.quadC r + s.radius * s.radius) := by
  simp only [RayR.at, Vec3R.add_def, Vec3R.sub_def, Vec3R.hmul_def, Vec3R.squared_length,
    Vec3R.dot, SphereR.quadA, SphereR.quadH, SphereR.quadC]
  ring

/-- `t` solves the sphere equation iff it is a root of the quadratic
`a·t² - 2·h·t + c = 0` solved by `Sphere::hit`. -/
theorem sphereEqRoot_iff (s : SphereR) (r : RayR) (t : ℝ) :
    sphereEqRoot s r t ↔ s.quadA r * t ^ 2 - 2 * s.quadH r * t + s.quadC r = 0 := by
  unfold sphereEqRoot
  rw [sq_len_at]
  constructor <;> intro h <;> linarith

/-- The quadratic evaluated at `t`, rewritten around the discriminant:
`a·t² - 2·h·t + c = ((a·t - h)² - disc)/a`. -/
theorem quad_eval (s : SphereR) (r : RayR) (ha : s.quadA r ≠ 0) (t : ℝ) :
    s.quadA r * t ^ 2 - 2 * s.quadH r * t + s.quadC r
      = ((s.quadA r * t - s.quadH r) ^ 2 - s.disc r) / s.quadA r := by
  have hd' : s.disc r = s.quadH r * s.quadH r - s.quadA r * s.quadC r := rfl
  rw [hd']
  field_simp
  ring

/-- `a · root1 - h = -√disc`. -/
theorem quadA_mul_root1 (s : SphereR) (r : RayR) (ha : s.quadA r ≠ 0) :
    s.quadA r * s.root1 r - s.quadH r = -Real.sqrt (s.disc r) := by
  unfold SphereR.root1
  field_simp

/-- `a · root2 - h = √disc`. -/
theorem quadA_mul_root2 (s : SphereR) (r : RayR) (ha : s.quadA r ≠ 0) :
    s.quadA r * s.root2 r - s.quadH r = Real.sqrt (s.disc r) := by
  unfold SphereR.root2
  field_simp

/-- The two candidate roots of `Sphere::hit` do solve the sphere equation
when the discriminant is nonnegative. -/
theorem roots_solve (s : SphereR) (r : RayR) (ha : 0 < s.quadA r) (hd : 0 ≤ s.disc r) :
    sphereEqRoot s r (s.root1 r) ∧ sphereEqRoot s r (s.root2 r) := by
  have hsq : Real.sqrt (s.disc r) ^ 2 = s.disc r := Real.sq_sqrt hd
  have hane : s.quadA r ≠ 0 := ne_of_gt ha
  constructor <;> rw [sphereEqRoot_iff, quad_eval s r hane, div_eq_zero_iff]
  · left
    rw [quadA_mul_root1 s r hane, neg_sq, hsq, sub_self]
  · left
    rw [quadA_mul_root2 s r hane, hsq, sub_self]

/-- Conversely, every solution of the sphere equation is one of the two
candidate roots, and the discriminant is then nonnegative. -/
theorem eqRoot_elim (s : SphereR) (r : RayR) (ha : 0 < s.quadA r) (t : ℝ)
    (ht : sphereEqRoot s r t) :
    0 ≤ s.disc r ∧ (t = s.root1 r ∨ t = s.root2 r) := by
  rw [sphereEqRoot_iff] at ht
  have hane : s.quadA r ≠ 0 := ne_of_gt ha
  have hd' : s.disc r = s.quadH r * s.quadH r - s.quadA r * s.quadC r := rfl
  have hsq : (s.quadA r * t - s.quadH r) ^ 2 = s.disc r := by
    linear_combination s.quadA r * ht - hd'
  have hd : 0 ≤ s.disc r := hsq ▸ sq_nonneg _
  refine ⟨hd, ?_⟩
  have habs : Real.sqrt (s.disc r) = |s.quadA r * t - s.quadH r| := by
    rw [← hsq, Real.sqrt_sq_eq_abs]
  rcases abs_cases (s.quadA r * t - s.quadH r) with ⟨heq, _⟩ | ⟨heq, _⟩
  · right
    unfold SphereR.root2
    rw [habs, heq]
    field_simp
  · left
    unfold SphereR.root1
    rw [habs, heq]
    field_simp

/-- The smaller candidate root is at most the larger one. -/
theorem root1_le_root2 (s : SphereR) (r : RayR) (ha : 0 < s.quadA r) :
    s.root1 r ≤ s.root2 r := by
  unfold SphereR.root1 SphereR.root2
  have hs := Real.sqrt_nonneg (s.disc r)
  rw [div_le_div_iff ha ha]
  nlinarith [hs, ha]

/-- When the ray origin is strictly inside the sphere (`c < 0`), the
discriminant is positive and the near root is negative. -/
theorem root1_neg_of_inside (s : SphereR) (r : RayR) (ha : 0 < s.quadA r)
    (hc : s.quadC r < 0) : s.root1 r < 0 ∧ 0 ≤ s.disc r := by
  have hd' : s.disc r = s.quadH r * s.quadH r - s.quadA r * s.quadC r := rfl
  have hac : s.quadA r * s.quadC r < 0 := mul_neg_of_pos_of_neg ha hc
  have hd : 0 ≤ s.disc r := by nlinarith [mul_self_nonneg (s.quadH r)]
  refine ⟨?_, hd⟩
  have hsnn := Real.sqrt_nonneg (s.disc r)
  have hsq : Real.sqrt (s.disc r) ^ 2 = s.disc r := Real.sq_sqrt hd
  have hnum : s.quadH r - Real.sqrt (s.disc r) < 0 := by
    by_contra hcon
    push_neg at hcon
    nlinarith [hcon, hsnn, hsq]
  exact div_neg_of_neg_of_pos hnum ha

/-! ## Claim C1 -/

/-- Claim C1: `Sphere::hit` reports no hit on a negative discriminant;
otherwise it accepts the smaller root `(h-√disc)/a` if strictly
surrounded, else the larger root `(h+√disc)/a` if strictly surrounded,
else no hit; the recorded `t` is the nearest solution of the sphere
equation strictly inside the query interval; and for a ray starting
inside the sphere with a nonnegative interval lower bound, any accepted
root is the far root.  (Real-valued idealisation; the ray direction is
required to be nonzero, `0 < a`, since a zero direction makes the f32
code divide by zero.) -/
theorem sphere_hit_nearest_root (s : SphereR) (r : RayR) (i : IntervalR)
    (rec : HitRecordR) (ha : 0 < s.quadA r) :
    (s.disc r < 0 → (s.hit r i rec).1 = false)
    ∧ (0 ≤ s.disc r → s.root1 r ≤ s.root2 r)
    ∧ (0 ≤ s.disc r →
        (i.surrounds (s.root1 r) → s.hit r i rec = (true, hitRecordFor s r (s.root1 r) rec))
        ∧ (¬ i.surrounds (s.root1 r) → i.surrounds (s.root2 r) →
            s.hit r i rec = (true, hitRecordFor s r (s.root2 r) rec))
        ∧ (¬ i.surrounds (s.root1 r) → ¬ i.surrounds (s.root2 r) →
            (s.hit r i rec).1 = false))
    ∧ ((s.hit r i rec).1 = true →
        sphereEqRoot s r (s.hit r i rec).2.t ∧ i.surrounds (s.hit r i rec).2.t
        ∧ ∀ t, sphereEqRoot s r t → i.surrounds t → (s.hit r i rec).2.t ≤ t)
    ∧ ((s.hit r i rec).1 = false → ∀ t, sphereEqRoot s r t → ¬ i.surrounds t)
    ∧ (s.quadC r < 0 → 0 ≤ i.min → (s.hit r i rec).1 = true →
        (s.hit r i rec).2.t = s.root2 r) := by
  rw [SphereR.hit_eq]
  split_ifs with h1 h2 h3
  · -- negative discriminant: miss
    exact ⟨fun _ => rfl,
      fun hd => absurd h1 (not_lt.mpr hd),
      fun hd => absurd h1 (not_lt.mpr hd),
      fun hcon => by simp at hcon,
      fun _ t ht _ => absurd h1 (not_lt.mpr (eqRoot_elim s r ha t ht).1),
      fun _ _ hcon => by simp at hcon⟩
  · -- the smaller root is surrounded and accepted
    have hd : 0 ≤ s.disc r := not_lt.mp h1
    refine ⟨fun hcon => absurd hcon h1,
      fun _ => root1_le_root2 s r ha,
      fun _ => ⟨fun _ => rfl, fun hns _ => absurd h2 hns, fun hns _ => absurd h2 hns⟩,
      fun _ => ⟨(roots_solve s r ha hd).1, h2, ?_⟩,
      fun hcon => by simp at hcon,
      ?_⟩
    · intro t ht hsurr
      rcases (eqRoot_elim s r ha t ht).2 with hteq | hteq
      · exact le_of_eq hteq.symm
      · rw [hteq]
        exact root1_le_root2 s r ha
    · intro hc hmin _
      exfalso
      have hneg := (root1_neg_of_inside s r ha hc).1
      have hlt : i.min < s.root1 r := h2.1
      linarith
  · -- only the larger root is surrounded and accepted
    have hd : 0 ≤ s.disc r := not_lt.mp h1
    refine ⟨fun hcon => absurd hcon h1,
      fun _ => root1_le_root2 s r ha,
      fun _ => ⟨fun hs1 => absurd hs1 h2, fun _ _ => rfl, fun _ hns2 => absurd h3 hns2⟩,
      fun _ => ⟨(roots_solve s r ha hd).2, h3, ?_⟩,
      fun hcon => by simp at hcon,
      fun _ _ _ => rfl⟩
    intro t ht hsurr
    rcases (eqRoot_elim s r ha t ht).2 with hteq | hteq
    · rw [hteq] at hsurr
      exact absurd hsurr h2
    · exact le_of_eq hteq.symm
  · -- neither root is surrounded: miss
    refine ⟨fun _ => rfl,
      fun _ => root1_le_root2 s r ha,
      fun _ => ⟨fun hs1 => absurd hs1 h2, fun _ hs2 => absurd hs2 h3, fun _ _ => rfl⟩,
      fun hcon => by simp at hcon,
      ?_,
      fun _ _ hcon => by simp at hcon⟩
    intro _ t ht hsurr
    rcases (eqRoot_elim s r ha t ht).2 with hteq | hteq
    · rw [hteq] at hsurr
      exact absurd hsurr h2
    · rw [hteq] at hsurr
      exact absurd hsurr h3

/-- A concrete sphere used by the witnesses: center `(0,0,-1)`, radius
`1/2` (the foreground sphere of `main`). -/
noncomputable def wSphere : SphereR := ⟨⟨0, 0, -1⟩, 1/2⟩

/-- A concrete ray used by the witnesses: origin `(0,0,0)`, direction
`(0,0,-1)`. -/
noncomputable def wRay : RayR := ⟨⟨0, 0, 0⟩, ⟨0, 0, -1⟩⟩

/-- A concrete query interval used by the witnesses. -/
noncomputable def wInterval : IntervalR := ⟨1/1000, 100⟩

/-- Witness for `sphere_hit_nearest_root` at a concrete sphere, ray, and
interval. -/
theorem sphere_hit_nearest_root_witness :
    (wSphere.disc wRay < 0 → (wSphere.hit wRay wInterval HitRecordR.default).1 = false)
    ∧ (0 ≤ wSphere.disc wRay → wSphere.root1 wRay ≤ wSphere.root2 wRay)
    ∧ (0 ≤ wSphere.disc wRay →
        (wInterval.surrounds (wSphere.root1 wRay) →
          wSphere.hit wRay wInterval HitRecordR.default
            = (true, hitRecordFor wSphere wRay (wSphere.root1 wRay) HitRecordR.default))
        ∧ (¬ wInterval.surrounds (wSphere.root1 wRay) →
            wInterval.surrounds (wSphere.root2 wRay) →
            wSphere.hit wRay wInterval HitRecordR.default
              = (true, hitRecordFor wSphere wRay (wSphere.root2 wRay) HitRecordR.default))
        ∧ (¬ wInterval.surrounds (wSphere.root1 wRay) →
            ¬ wInterval.surrounds (wSphere.root2 wRay) →
            (wSphere.hit wRay wInterval HitRecordR.default).1 = false))
    ∧ ((wSphere.hit wRay wInterval HitRecordR.default).1 = true →
        sphereEqRoot wSphere wRay (wSphere.hit wRay wInterval HitRecordR.default).2.t
        ∧ wInterval.surrounds (wSphere.hit wRay wInterval HitRecordR.default).2.t
        ∧ ∀ t, sphereEqRoot wSphere wRay t → wInterval.surrounds t →
            (wSphere.hit wRay wInterval HitRecordR.default).2.t ≤ t)
    ∧ ((wSphere.hit wRay wInterval HitRecordR.default).1 = false →
        ∀ t, sphereEqRoot wSphere wRay t → ¬ wInterval.surrounds t)
    ∧ (wSphere.quadC wRay < 0 → 0 ≤ wInterval.min →
        (wSphere.hit wRay wInterval HitRecordR.default).1 = true →
        (wSphere.hit wRay wInterval HitRecordR.default).2.t = wSphere.root2 wRay) :=
  sphere_hit_nearest_root wSphere wRay wInterval HitRecordR.default
    (by norm_num [SphereR.quadA, Vec3R.squared_length, wRay])

/-! ## Claim C4 -/

/-- The dot product is symmetric. -/
theorem Vec3R.dot_comm (v w : Vec3R) : v.dot w = w.dot v := by
  simp only [Vec3R.dot]
  ring

/-- The ray direction dotted with the outward normal at parameter `root`
equals `(a·root - h)/radius`. -/
theorem dot_outward_at_root (s : SphereR) (r : RayR) (root : ℝ) (hrad : s.radius ≠ 0) :
    r.direction.dot ((r.at root - s.center) / s.radius)
      = (s.quadA r * root - s.quadH r) / s.radius := by
  simp only [RayR.at, Vec3R.dot, Vec3R.add_def, Vec3R.sub_def, Vec3R.hmul_def,
    Vec3R.hdiv_def, SphereR.quadA, SphereR.quadH, Vec3R.squared_length]
  field_simp
  ring

/-- The record written on acceptance satisfies the orientation contract of
`set_face_normal`. -/
theorem hitRecordFor_orientation (s : SphereR) (r : RayR) (root : ℝ) (rec : HitRecordR) :
    (hitRecordFor s r root rec).point = r.at (hitRecordFor s r root rec).t
    ∧ ((hitRecordFor s r root rec).front_face = true ↔
        r.direction.dot (((hitRecordFor s r root rec).point - s.center) / s.radius) < 0)
    ∧ ((hitRecordFor s r root rec).front_face = true →
        (hitRecordFor s r root rec).normal
          = ((hitRecordFor s r root rec).point - s.center) / s.radius)
    ∧ ((hitRecordFor s r root rec).front_face = false →
        (hitRecordFor s r root rec).normal
          = -(((hitRecordFor s r root rec).point - s.center) / s.radius)) := by
  have hff := hitRecordFor_front_face s r root rec
  have hn := hitRecordFor_normal s r root rec
  refine ⟨rfl, hff, ?_, ?_⟩
  · intro h
    rw [hn, if_pos (hff.mp h)]
    rfl
  · intro h
    have hd : ¬ r.direction.dot ((r.at root - s.center) / s.radius) < 0 := by
      intro hd
      rw [hff.mpr hd] at h
      exact Bool.noConfusion h
    rw [hn, if_neg hd]
    rfl

/-- Claim C4 (amended): on every accepted intersection the recorded normal
is the outward normal `(point - center)/radius` when
`direction · outward < 0` (then `front_face = true`), and its negation
with `front_face = false` otherwise; and for a ray originating outside a
positive-radius sphere that hits the near surface NON-TANGENTIALLY
(`disc > 0`), `normal · direction < 0` holds.  (The original claim without
the non-tangency condition is refuted by `normal_dot_zero_on_tangent`.) -/
theorem hit_normal_orientation (s : SphereR) (r : RayR) (i : IntervalR)
    (rec : HitRecordR) (hrad : 0 < s.radius) (ha : 0 < s.quadA r) :
    ((s.hit r i rec).1 = true →
      (s.hit r i rec).2.point = r.at (s.hit r i rec).2.t
      ∧ ((s.hit r i rec).2.front_face = true ↔
          r.direction.dot (((s.hit r i rec).2.point - s.center) / s.radius) < 0)
      ∧ ((s.hit r i rec).2.front_face = true →
          (s.hit r i rec).2.normal = ((s.hit r i rec).2.point - s.center) / s.radius)
      ∧ ((s.hit r i rec).2.front_face = false →
          (s.hit r i rec).2.normal = -(((s.hit r i rec).2.point - s.center) / s.radius)))
    ∧ (0 < s.disc r → 0 < s.quadC r → (s.hit r i rec).1 = true →
        (s.hit r i rec).2.t = s.root1 r →
        (s.hit r i rec).2.normal.dot r.direction < 0) := by
  rw [SphereR.hit_eq]
  split_ifs with h1 h2 h3
  · exact ⟨fun hcon => by simp at hcon, fun _ _ hcon => by simp at hcon⟩
  · refine ⟨fun _ => hitRecordFor_orientation s r (s.root1 r) rec, ?_⟩
    intro hdpos _ _ _
    have hsd : 0 < Real.sqrt (s.disc r) := Real.sqrt_pos.mpr hdpos
    have hdot : r.direction.dot ((r.at (s.root1 r) - s.center) / s.radius) < 0 := by
      rw [dot_outward_at_root s r _ (ne_of_gt hrad), quadA_mul_root1 s r (ne_of_gt ha)]
      exact div_neg_of_neg_of_pos (neg_lt_zero.mpr hsd) hrad
    have hn := hitRecordFor_normal s r (s.root1 r) rec
    show (hitRecordFor s r (s.root1 r) rec).normal.dot r.direction < 0
    rw [Vec3R.dot_comm, hn, if_pos hdot]
    exact hdot
  · refine ⟨fun _ => hitRecordFor_orientation s r (s.root2 r) rec, ?_⟩
    intro hdpos _ _ hteq
    exfalso
    have hteq' : s.root2 r = s.root1 r := hteq
    have hsd : 0 < Real.sqrt (s.disc r) := Real.sqrt_pos.mpr hdpos
    have hm1 := quadA_mul_root1 s r (ne_of_gt ha)
    have hm2 := quadA_mul_root2 s r (ne_of_gt ha)
    rw [hteq'] at hm2
    linarith
  · exact ⟨fun hcon => by simp at hcon, fun _ _ hcon => by simp at hcon⟩

/-- Evaluation of `Sphere::hit` at the witness configuration: the near
root `1/2` of the foreground sphere is accepted. -/
theorem wSphere_hit_eval :
    wSphere.hit wRay wInterval HitRecordR.default
      = (true, hitRecordFor wSphere wRay (wSphere.root1 wRay) HitRecordR.default) := by
  have hdisc : wSphere.disc wRay = 1/4 := by
    norm_num [SphereR.disc, SphereR.quadA, SphereR.quadH, SphereR.quadC, wSphere, wRay,
      Vec3R.dot, Vec3R.squared_length]
  have hr1 : wSphere.root1 wRay = 1/2 := by
    rw [SphereR.root1, hdisc, show (1/4 : ℝ) = (1/2)^2 by norm_num,
      Real.sqrt_sq (by norm_num : (0:ℝ) ≤ 1/2)]
    norm_num [SphereR.quadA, SphereR.quadH, wSphere, wRay, Vec3R.dot, Vec3R.squared_length]
  rw [SphereR.hit_eq, if_neg (by rw [hdisc]; norm_num), hr1,
    if_pos (by constructor <;> norm_num [wInterval])]

/-- Witness for `hit_normal_orientation`: at the concrete transversal
configuration the accepted record satisfies the orientation contract and
`normal · direction < 0`. -/
theorem hit_normal_orientation_witness :
    ((wSphere.hit wRay wInterval HitRecordR.default).2.point
        = wRay.at (wSphere.hit wRay wInterval HitRecordR.default).2.t
      ∧ ((wSphere.hit wRay wInterval HitRecordR.default).2.front_face = true ↔
          wRay.direction.dot
            (((wSphere.hit wRay wInterval HitRecordR.default).2.point - wSphere.center)
              / wSphere.radius) < 0)
      ∧ ((wSphere.hit wRay wInterval HitRecordR.default).2.front_face = true →
          (wSphere.hit wRay wInterval HitRecordR.default).2.normal
            = ((wSphere.hit wRay wInterval HitRecordR.default).2.point - wSphere.center)
                / wSphere.radius)
      ∧ ((wSphere.hit wRay wInterval HitRecordR.default).2.front_face = false →
          (wSphere.hit wRay wInterval HitRecordR.default).2.normal
            = -(((wSphere.hit wRay wInterval HitRecordR.default).2.point - wSphere.center)
                / wSphere.radius)))
    ∧ (wSphere.hit wRay wInterval HitRecordR.default).2.normal.dot wRay.direction < 0 := by
  have hthm := hit_normal_orientation wSphere wRay wInterval HitRecordR.default
    (by norm_num [wSphere])
    (by norm_num [SphereR.quadA, Vec3R.squared_length, wRay])
  refine ⟨hthm.1 (by rw [wSphere_hit_eval]), ?_⟩
  refine hthm.2 ?_ ?_ (by rw [wSphere_hit_eval]) (by rw [wSphere_hit_eval]; rfl)
  · show (0 : ℝ) < wSphere.disc wRay
    norm_num [SphereR.disc, SphereR.quadA, SphereR.quadH, SphereR.quadC, wSphere, wRay,
      Vec3R.dot, Vec3R.squared_length]
  · show (0 : ℝ) < wSphere.quadC wRay
    norm_num [SphereR.quadC, wSphere, wRay, Vec3R.dot, Vec3R.squared_length]

/-- Tangent configuration: sphere center `(0,1,5)` radius `1`, ray from
the origin along `(0,0,1)`, grazing the sphere at `(0,0,5)`. -/
noncomputable def tSphere : SphereR := ⟨⟨0, 1, 5⟩, 1⟩

/-- The tangent ray of the counterexample. -/
noncomputable def tRay : RayR := ⟨⟨0, 0, 0⟩, ⟨0, 0, 1⟩⟩

/-- Counterexample to claim C4 as stated: the ray `tRay` originates
strictly outside `tSphere` (`c = 25 > 0`) and hits its near surface (the
near root is accepted), yet the recorded normal satisfies
`normal · direction = 0`, not `< 0` — a tangential hit flips
`front_face` to `false` and negates the normal. -/
theorem normal_dot_zero_on_tangent :
    0 < tSphere.quadC tRay
    ∧ (tSphere.hit tRay wInterval HitRecordR.default).1 = true
    ∧ (tSphere.hit tRay wInterval HitRecordR.default).2.t = tSphere.root1 tRay
    ∧ ¬ ((tSphere.hit tRay wInterval HitRecordR.default).2.normal.dot tRay.direction < 0) := by
  have hdisc : tSphere.disc tRay = 0 := by
    norm_num [SphereR.disc, SphereR.quadA, SphereR.quadH, SphereR.quadC, tSphere, tRay,
      Vec3R.dot, Vec3R.squared_length]
  have hr1 : tSphere.root1 tRay = 5 := by
    rw [SphereR.root1, hdisc, Real.sqrt_zero]
    norm_num [SphereR.quadA, SphereR.quadH, tSphere, tRay, Vec3R.dot, Vec3R.squared_length]
  have heval : tSphere.hit tRay wInterval HitRecordR.default
      = (true, hitRecordFor tSphere tRay (tSphere.root1 tRay) HitRecordR.default) := by
    rw [SphereR.hit_eq, if_neg (by rw [hdisc]; norm_num), hr1,
      if_pos (by constructor <;> norm_num [wInterval])]
  have hdot : tRay.direction.dot ((tRay.at (tSphere.root1 tRay) - tSphere.center)
      / tSphere.radius) = 0 := by
    rw [hr1]
    norm_num [tRay, tSphere, RayR.at, Vec3R.dot, Vec3R.squared_length]
  refine ⟨by norm_num [SphereR.quadC, tSphere, tRay, Vec3R.dot, Vec3R.squared_length],
    by rw [heval], by rw [heval]; rfl, ?_⟩
  rw [heval]
  show ¬ ((hitRecordFor tSphere tRay (tSphere.root1 tRay) HitRecordR.default).normal.dot
    tRay.direction < 0)
  rw [Vec3R.dot_comm, hitRecordFor_normal, if_neg (by rw [hdot]; norm_num)]
  have : tRay.direction.dot (-((tRay.at (tSphere.root1 tRay) - tSphere.center)
      / tSphere.radius)) = 0 := by
    simp only [Vec3R.neg_def, Vec3R.dot, Vec3R.hdiv_def, Vec3R.sub_def] at hdot ⊢
    linarith [hdot]
  rw [this]
  norm_num

/-! ## Claim C9 -/

/-- Unfolding of the empty aggregate loop. -/
theorem hitLoop_nil (r : RayR) (tmin : ℝ) (st : hitLoopState) :
    hitLoop r tmin [] st = st := rfl

/-- Unfolding of one step of the aggregate loop. -/
theorem hitLoop_cons (r : RayR) (tmin : ℝ) (s : SphereR) (rest : List SphereR)
    (flag : Bool) (closest : ℝ) (temp rec : HitRecordR) :
    hitLoop r tmin (s :: rest) (flag, closest, temp, rec)
      = if (s.hit r (IntervalR.new tmin closest) temp).1
        then hitLoop r tmin rest (true, (s.hit r (IntervalR.new tmin closest) temp).2.t,
          (s.hit r (IntervalR.new tmin closest) temp).2,
          (s.hit r (IntervalR.new tmin closest) temp).2)
        else hitLoop r tmin rest
          (flag, closest, (s.hit r (IntervalR.new tmin closest) temp).2, rec) := rfl

/-- Once `hit_anything` is set it stays set for the rest of the loop. -/
theorem hitLoop_flag_mono (r : RayR) (tmin : ℝ) (l : List SphereR) :
    ∀ (closest : ℝ) (temp rec : HitRecordR),
    (hitLoop r tmin l (true, closest, temp, rec)).1 = true := by
  induction l with
  | nil => intro _ _ _; rfl
  | cons s rest ih =>
    intro closest temp rec
    rw [hitLoop_cons]
    by_cases hres : (s.hit r (IntervalR.new tmin closest) temp).1 = true
    · rw [if_pos hres]
      exact ih _ _ _
    · rw [if_neg hres]
      exact ih _ _ _

/-- If the whole loop reports no hit, the caller's record component is
passed through untouched. -/
theorem hitLoop_rec_of_not_hit (r : RayR) (tmin : ℝ) (l : List SphereR) :
    ∀ (closest : ℝ) (temp rec : HitRecordR),
    (hitLoop r tmin l (false, closest, temp, rec)).1 = false →
    (hitLoop r tmin l (false, closest, temp, rec)).2.2.2 = rec := by
  induction l with
  | nil => intro _ _ _ _; rfl
  | cons s rest ih =>
    intro closest temp rec hflag
    rw [hitLoop_cons] at hflag ⊢
    by_cases hres : (s.hit r (IntervalR.new tmin closest) temp).1 = true
    · rw [if_pos hres] at hflag
      rw [hitLoop_flag_mono r tmin rest _ _ _] at hflag
      exact Bool.noConfusion hflag
    · rw [if_neg hres] at hflag ⊢
      exact ih _ _ _ hflag

/-- `Sphere::hit` leaves the record untouched whenever it misses. -/
theorem sphere_hit_miss_preserves (s : SphereR) (r : RayR) (i : IntervalR)
    (rec : HitRecordR) (h : (s.hit r i rec).1 = false) : (s.hit r i rec).2 = rec := by
  rw [SphereR.hit_eq] at h ⊢
  split_ifs at h ⊢ with h1 h2 h3
  all_goals first | rfl | simp at h

/-- Claim C9: whenever `Sphere::hit` or `HittableList::hit` returns
false, the caller's `HitRecord` is left exactly as it was: the sphere
writes the record only after a root is accepted, and the aggregate copies
into the caller's record only when a member reports a hit. -/
theorem hit_miss_leaves_record :
    (∀ (s : SphereR) (r : RayR) (i : IntervalR) (rec : HitRecordR),
        (s.hit r i rec).1 = false → (s.hit r i rec).2 = rec)
    ∧ (∀ (l : List SphereR) (r : RayR) (i : IntervalR) (rec : HitRecordR),
        (HittableList.hit l r i rec).1 = false → (HittableList.hit l r i rec).2 = rec) :=
  ⟨sphere_hit_miss_preserves,
   fun l r i rec h => hitLoop_rec_of_not_hit r i.min l i.max HitRecordR.default rec h⟩

/-- A sphere the witness ray misses entirely: center `(0,10,0)`, radius 1. -/
noncomputable def mSphere : SphereR := ⟨⟨0, 10, 0⟩, 1⟩

/-- The witness ray for the miss: origin `(0,0,0)`, direction `(0,0,1)`. -/
noncomputable def mRay : RayR := ⟨⟨0, 0, 0⟩, ⟨0, 0, 1⟩⟩

/-- A distinctive record passed in by the caller of the witness. -/
noncomputable def recW : HitRecordR := ⟨⟨1, 2, 3⟩, ⟨4, 5, 6⟩, 7, true⟩

/-- `mSphere` is missed by `mRay` under every interval: the discriminant
is `-99 < 0`. -/
theorem mSphere_miss (i : IntervalR) (rec : HitRecordR) :
    mSphere.hit mRay i rec = (false, rec) := by
  rw [SphereR.hit_eq, if_pos ?_]
  norm_num [SphereR.disc, SphereR.quadA, SphereR.quadH, SphereR.quadC, mSphere, mRay,
    Vec3R.dot, Vec3R.squared_length]

/-- The one-member aggregate also misses and passes the record through. -/
theorem list_miss_eval :
    HittableList.hit [mSphere] mRay wInterval recW = (false, recW) := by
  show ((hitLoop mRay wInterval.min [mSphere]
      (false, wInterval.max, HitRecordR.default, recW)).1,
    (hitLoop mRay wInterval.min [mSphere]
      (false, wInterval.max, HitRecordR.default, recW)).2.2.2) = (false, recW)
  rw [hitLoop_cons, if_neg (by rw [mSphere_miss]; simp), hitLoop_nil]

/-- Witness for `hit_miss_leaves_record` at a concrete missing
configuration. -/
theorem hit_miss_leaves_record_witness :
    (mSphere.hit mRay wInterval recW).2 = recW
    ∧ (HittableList.hit [mSphere] mRay wInterval recW).2 = recW :=
  ⟨hit_miss_leaves_record.1 mSphere mRay wInterval recW (by rw [mSphere_miss]),
   hit_miss_leaves_record.2 [mSphere] mRay wInterval recW (by rw [list_miss_eval])⟩

/-! ## Claim C3 -/

/-- Claim C3 (code bug eval): converting `(0, 1, 0.5)` with the source's
`Vec3::rgba` — which applies gamma = sqrt before clamping and
quantising — yields `(0, 255, 181, 255)`: the blue channel is
`floor(sqrt(0.5) · 255.99) = 181`, not the `127` asserted by the claim
and by the in-repo test `test_rgba` (which matches the pre-gamma value
`floor(0.5 · 255.99) = 127`). -/
theorem rgba_gamma_eval :
    (Vec3R.mk 0 1 (0.5 : ℝ)).rgba = (0, 255, 181, 255)
    ∧ (Vec3R.mk 0 1 (0.5 : ℝ)).rgba ≠ (0, 255, 127, 255) := by
  have h05 : Real.sqrt 0.5 ^ 2 = 0.5 := Real.sq_sqrt (by norm_num)
  have h05nn : 0 ≤ Real.sqrt 0.5 := Real.sqrt_nonneg _
  have hlow : (181 : ℝ) ≤ Real.sqrt 0.5 * 255.99 := by
    by_contra hcon
    push_neg at hcon
    nlinarith [h05, h05nn, hcon]
  have hhigh : Real.sqrt 0.5 * 255.99 < 182 := by
    by_contra hcon
    push_neg at hcon
    nlinarith [h05, h05nn, hcon]
  have hle : Real.sqrt 0.5 ≤ 0.999 := by
    by_contra hcon
    push_neg at hcon
    nlinarith [h05, h05nn, hcon]
  have cx : asU8 ((IntervalR.new 0 0.999).clamp (linear_to_gamma 0) * 255.99) = 0 := by
    rw [linear_to_gamma, if_neg (by norm_num)]
    rw [IntervalR.clamp]
    norm_num [IntervalR.new, asU8]
  have cy : asU8 ((IntervalR.new 0 0.999).clamp (linear_to_gamma 1) * 255.99) = 255 := by
    rw [linear_to_gamma, if_pos (by norm_num : (1:ℝ) > 0), Real.sqrt_one]
    rw [IntervalR.clamp]
    rw [if_neg (by norm_num [IntervalR.new]), if_pos (by norm_num [IntervalR.new])]
    have hfl : ⌊(0.999 : ℝ) * 255.99⌋ = 255 := by
      rw [Int.floor_eq_iff] <;> norm_num
    norm_num [IntervalR.new, asU8, hfl]
    rfl
  have cz : asU8 ((IntervalR.new 0 0.999).clamp (linear_to_gamma 0.5) * 255.99) = 181 := by
    rw [linear_to_gamma, if_pos (by norm_num : (0.5:ℝ) > 0)]
    rw [IntervalR.clamp]
    rw [if_neg (not_lt.mpr ?_), if_neg (not_lt.mpr ?_)]
    · have hfl : ⌊Real.sqrt 0.5 * 255.99⌋ = 181 := by
        rw [Int.floor_eq_iff]
        constructor
        · push_cast
          exact hlow
        · push_cast
          linarith
      rw [asU8, hfl]
      norm_num
      rfl
    · show Real.sqrt 0.5 ≤ (IntervalR.new 0 0.999).max
      exact hle
    · show (IntervalR.new 0 0.999).min ≤ Real.sqrt 0.5
      exact h05nn
  constructor
  · show (asU8 ((IntervalR.new 0 0.999).clamp (linear_to_gamma 0) * 255.99),
          asU8 ((IntervalR.new 0 0.999).clamp (linear_to_gamma 1) * 255.99),
          asU8 ((IntervalR.new 0 0.999).clamp (linear_to_gamma 0.5) * 255.99),
          (255 : ℕ))
        = ((0 : ℕ), (255 : ℕ), (181 : ℕ), (255 : ℕ))
    rw [cx, cy, cz]
  · show (asU8 ((IntervalR.new 0 0.999).clamp (linear_to_gamma 0) * 255.99),
          asU8 ((IntervalR.new 0 0.999).clamp (linear_to_gamma 1) * 255.99),
          asU8 ((IntervalR.new 0 0.999).clamp (linear_to_gamma 0.5) * 255.99),
          (255 : ℕ))
        ≠ ((0 : ℕ), (255 : ℕ), (127 : ℕ), (255 : ℕ))
    rw [cx, cy, cz]
    simp

/-! ## Per-sphere interval lemmas for the aggregate loop (claim C2) -/

/-- The hit flag of `Sphere::hit` does not depend on the incoming record. -/
theorem sphere_hit_flag_irrel (s : SphereR) (r : RayR) (i : IntervalR)
    (rec rec' : HitRecordR) : (s.hit r i rec).1 = (s.hit r i rec').1 := by
  rw [SphereR.hit_eq s r i rec, SphereR.hit_eq s r i rec']
  split_ifs <;> rfl

/-- On a hit, the written record does not depend on the incoming record. -/
theorem sphere_hit_rec_irrel (s : SphereR) (r : RayR) (i : IntervalR)
    (rec rec' : HitRecordR) (h : (s.hit r i rec).1 = true) :
    (s.hit r i rec').2 = (s.hit r i rec).2 := by
  rw [SphereR.hit_eq s r i rec] at h
  rw [SphereR.hit_eq s r i rec, SphereR.hit_eq s r i rec']
  split_ifs at h ⊢
  all_goals first
    | exact hitRecordFor_irrel s r _ rec' rec
    | simp at h

/-- An accepted `t` lies strictly inside the query interval. -/
theorem sphere_hit_t_bounds (s : SphereR) (r : RayR) (i : IntervalR)
    (rec : HitRecordR) (h : (s.hit r i rec).1 = true) :
    i.min < (s.hit r i rec).2.t ∧ (s.hit r i rec).2.t < i.max := by
  rw [SphereR.hit_eq s r i rec] at h ⊢
  split_ifs at h ⊢ with h1 h2 h3
  · exact h2
  · exact h3

/-- Widening the far bound preserves an accepted hit and its record. -/
theorem sphere_hit_widen (s : SphereR) (r : RayR) (tmin m m' : ℝ)
    (rec rec' : HitRecordR) (ha : 0 < s.quadA r) (hmm : m ≤ m')
    (hhit : (s.hit r (IntervalR.new tmin m) rec).1 = true) :
    s.hit r (IntervalR.new tmin m') rec'
      = (true, (s.hit r (IntervalR.new tmin m) rec).2) := by
  by_cases h1 : s.disc r < 0
  · rw [SphereR.hit_eq, if_pos h1] at hhit
    simp at hhit
  by_cases h2 : (IntervalR.new tmin m).surrounds (s.root1 r)
  · have hres : s.hit r (IntervalR.new tmin m) rec
        = (true, hitRecordFor s r (s.root1 r) rec) := by
      rw [SphereR.hit_eq, if_neg h1, if_pos h2]
    have h2' : (IntervalR.new tmin m').surrounds (s.root1 r) :=
      ⟨h2.1, lt_of_lt_of_le h2.2 hmm⟩
    rw [hres, SphereR.hit_eq, if_neg h1, if_pos h2',
      hitRecordFor_irrel s r (s.root1 r) rec' rec]
  · by_cases h3 : (IntervalR.new tmin m).surrounds (s.root2 r)
    · have hres : s.hit r (IntervalR.new tmin m) rec
          = (true, hitRecordFor s r (s.root2 r) rec) := by
        rw [SphereR.hit_eq, if_neg h1, if_neg h2, if_pos h3]
      have hr12 := root1_le_root2 s r ha
      have hnr1 : ¬ (IntervalR.new tmin m').surrounds (s.root1 r) := by
        intro hcon
        exact h2 ⟨hcon.1, lt_of_le_of_lt hr12 h3.2⟩
      have h3' : (IntervalR.new tmin m').surrounds (s.root2 r) :=
        ⟨h3.1, lt_of_lt_of_le h3.2 hmm⟩
      rw [hres, SphereR.hit_eq, if_neg h1, if_neg hnr1, if_pos h3',
        hitRecordFor_irrel s r (s.root2 r) rec' rec]
    · rw [SphereR.hit_eq, if_neg h1, if_neg h2, if_neg h3] at hhit
      simp at hhit

/-- Shrinking the far bound down to (above) an accepted `t` preserves the
hit and its record. -/
theorem sphere_hit_shrink (s : SphereR) (r : RayR) (tmin m m' : ℝ)
    (rec rec' : HitRecordR) (ha : 0 < s.quadA r) (hmm : m ≤ m')
    (hhit : (s.hit r (IntervalR.new tmin m') rec').1 = true)
    (hlt : (s.hit r (IntervalR.new tmin m') rec').2.t < m) :
    s.hit r (IntervalR.new tmin m) rec
      = (true, (s.hit r (IntervalR.new tmin m') rec').2) := by
  by_cases h1 : s.disc r < 0
  · rw [SphereR.hit_eq, if_pos h1] at hhit
    simp at hhit
  by_cases h2 : (IntervalR.new tmin m').surrounds (s.root1 r)
  · have hres : s.hit r (IntervalR.new tmin m') rec'
        = (true, hitRecordFor s r (s.root1 r) rec') := by
      rw [SphereR.hit_eq, if_neg h1, if_pos h2]
    rw [hres] at hlt
    have hlt' : s.root1 r < m := hlt
    have hs1 : (IntervalR.new tmin m).surrounds (s.root1 r) := ⟨h2.1, hlt'⟩
    rw [hres, SphereR.hit_eq, if_neg h1, if_pos hs1,
      hitRecordFor_irrel s r (s.root1 r) rec rec']
  · by_cases h3 : (IntervalR.new tmin m').surrounds (s.root2 r)
    · have hres : s.hit r (IntervalR.new tmin m') rec'
          = (true, hitRecordFor s r (s.root2 r) rec') := by
        rw [SphereR.hit_eq, if_neg h1, if_neg h2, if_pos h3]
      rw [hres] at hlt
      have hlt' : s.root2 r < m := hlt
      have hnr1 : ¬ (IntervalR.new tmin m).surrounds (s.root1 r) := by
        intro hcon
        exact h2 ⟨hcon.1, lt_of_lt_of_le (lt_of_lt_of_le hcon.2 hmm) le_rfl⟩
      have hs2 : (IntervalR.new tmin m).surrounds (s.root2 r) := ⟨h3.1, hlt'⟩
      rw [hres, SphereR.hit_eq, if_neg h1, if_neg hnr1, if_pos hs2,
        hitRecordFor_irrel s r (s.root2 r) rec rec']
    · rw [SphereR.hit_eq, if_neg h1, if_neg h2, if_neg h3] at hhit
      simp at hhit

/-- Correctness of the `HittableList::hit` loop relative to the solo
results of its members against the window `(tmin, closest)`: if every
member misses, the loop state passes through unchanged; otherwise the
loop ends with the flag set, carrying the record of a member whose
accepted `t` is minimal among all members' accepted `t`s. -/
theorem hitLoop_correct (r : RayR) (tmin : ℝ) (ha : 0 < r.direction.squared_length)
    (l : List SphereR) :
    ∀ (closest : ℝ) (flag : Bool) (temp rec : HitRecordR),
    ((∀ s ∈ l, (s.hit r (IntervalR.new tmin closest) HitRecordR.default).1 = false) →
      hitLoop r tmin l (flag, closest, temp, rec) = (flag, closest, temp, rec))
    ∧ ((∃ s ∈ l, (s.hit r (IntervalR.new tmin closest) HitRecordR.default).1 = true) →
      ∃ s ∈ l, (s.hit r (IntervalR.new tmin closest) HitRecordR.default).1 = true
        ∧ hitLoop r tmin l (flag, closest, temp, rec)
            = (true, (s.hit r (IntervalR.new tmin closest) HitRecordR.default).2.t,
               (s.hit r (IntervalR.new tmin closest) HitRecordR.default).2,
               (s.hit r (IntervalR.new tmin closest) HitRecordR.default).2)
        ∧ ∀ s' ∈ l, (s'.hit r (IntervalR.new tmin closest) HitRecordR.default).1 = true →
            (s.hit r (IntervalR.new tmin closest) HitRecordR.default).2.t
              ≤ (s'.hit r (IntervalR.new tmin closest) HitRecordR.default).2.t) := by
  induction l with
  | nil =>
    intro closest flag temp rec
    exact ⟨fun _ => rfl, fun ⟨s, hs, _⟩ => absurd hs (List.not_mem_nil s)⟩
  | cons s0 rest ih =>
    intro closest flag temp rec
    constructor
    · -- every member misses: the state passes through
      intro hall
      have hs0 : (s0.hit r (IntervalR.new tmin closest) HitRecordR.default).1 = false :=
        hall s0 (List.mem_cons_self s0 rest)
      have hs0t : (s0.hit r (IntervalR.new tmin closest) temp).1 = false := by
        rw [sphere_hit_flag_irrel s0 r (IntervalR.new tmin closest) temp HitRecordR.default]
        exact hs0
      rw [hitLoop_cons, if_neg (by rw [hs0t]; simp),
        sphere_hit_miss_preserves s0 r (IntervalR.new tmin closest) temp hs0t]
      exact (ih closest flag temp rec).1 (fun s hs => hall s (List.mem_cons_of_mem s0 hs))
    · intro hex
      by_cases hs0 : (s0.hit r (IntervalR.new tmin closest) HitRecordR.default).1 = true
      · -- the head hits the current window
        have hs0t : (s0.hit r (IntervalR.new tmin closest) temp).1 = true := by
          rw [sphere_hit_flag_irrel s0 r (IntervalR.new tmin closest) temp HitRecordR.default]
          exact hs0
        have hrec : (s0.hit r (IntervalR.new tmin closest) temp).2
            = (s0.hit r (IntervalR.new tmin closest) HitRecordR.default).2 :=
          sphere_hit_rec_irrel s0 r (IntervalR.new tmin closest) HitRecordR.default temp hs0
        have hb := sphere_hit_t_bounds s0 r (IntervalR.new tmin closest) HitRecordR.default hs0
        have hstep : hitLoop r tmin (s0 :: rest) (flag, closest, temp, rec)
            = hitLoop r tmin rest
                (true, (s0.hit r (IntervalR.new tmin closest) HitRecordR.default).2.t,
                 (s0.hit r (IntervalR.new tmin closest) HitRecordR.default).2,
                 (s0.hit r (IntervalR.new tmin closest) HitRecordR.default).2) := by
          rw [hitLoop_cons, if_pos hs0t, hrec]
        by_cases hrest : ∃ sx ∈ rest, (sx.hit r (IntervalR.new tmin
            (s0.hit r (IntervalR.new tmin closest) HitRecordR.default).2.t)
            HitRecordR.default).1 = true
        · -- some member of the tail beats the head inside the narrowed window
          obtain ⟨sStar, hmem, hsStar, heq, hmin⟩ :=
            (ih (s0.hit r (IntervalR.new tmin closest) HitRecordR.default).2.t true
              (s0.hit r (IntervalR.new tmin closest) HitRecordR.default).2
              (s0.hit r (IntervalR.new tmin closest) HitRecordR.default).2).2 hrest
          have ht0c : (s0.hit r (IntervalR.new tmin closest) HitRecordR.default).2.t
              ≤ closest := le_of_lt hb.2
          have hwiden := sphere_hit_widen sStar r tmin
            (s0.hit r (IntervalR.new tmin closest) HitRecordR.default).2.t closest
            HitRecordR.default HitRecordR.default ha ht0c hsStar
          have hbStar := sphere_hit_t_bounds sStar r
            (IntervalR.new tmin (s0.hit r (IntervalR.new tmin closest) HitRecordR.default).2.t)
            HitRecordR.default hsStar
          refine ⟨sStar, List.mem_cons_of_mem s0 hmem, ?_, ?_, ?_⟩
          · rw [hwiden]
          · rw [hstep, heq, hwiden]
          · intro s' hs' hhit'
            rcases List.mem_cons.mp hs' with rfl | hmem'
            · rw [hwiden]
              exact le_of_lt hbStar.2
            · by_contra hcon
              push_neg at hcon
              rw [hwiden] at hcon
              have htlt : (s'.hit r (IntervalR.new tmin closest) HitRecordR.default).2.t
                  < (s0.hit r (IntervalR.new tmin closest) HitRecordR.default).2.t :=
                lt_trans hcon hbStar.2
              have hshrink := sphere_hit_shrink s' r tmin
                (s0.hit r (IntervalR.new tmin closest) HitRecordR.default).2.t closest
                HitRecordR.default HitRecordR.default ha ht0c hhit' htlt
              have hhit'' : (s'.hit r (IntervalR.new tmin
                  (s0.hit r (IntervalR.new tmin closest) HitRecordR.default).2.t)
                  HitRecordR.default).1 = true := by rw [hshrink]
              have hge := hmin s' hmem' hhit''
              rw [hshrink] at hge
              exact absurd hge (not_le.mpr hcon)
        · -- nothing in the tail hits the narrowed window: the head wins
          push_neg at hrest
          have hall : ∀ sx ∈ rest, (sx.hit r (IntervalR.new tmin
              (s0.hit r (IntervalR.new tmin closest) HitRecordR.default).2.t)
              HitRecordR.default).1 = false := by
            intro sx hx
            simpa using hrest sx hx
          have hA := (ih (s0.hit r (IntervalR.new tmin closest) HitRecordR.default).2.t true
            (s0.hit r (IntervalR.new tmin closest) HitRecordR.default).2
            (s0.hit r (IntervalR.new tmin closest) HitRecordR.default).2).1 hall
          refine ⟨s0, List.mem_cons_self s0 rest, hs0, ?_, ?_⟩
          · rw [hstep, hA]
          · intro s' hs' hhit'
            rcases List.mem_cons.mp hs' with rfl | hmem'
            · exact le_refl _
            · by_contra hcon
              push_neg at hcon
              have hshrink := sphere_hit_shrink s' r tmin
                (s0.hit r (IntervalR.new tmin closest) HitRecordR.default).2.t closest
                HitRecordR.default HitRecordR.default ha (le_of_lt hb.2) hhit' hcon
              have hx : (s'.hit r (IntervalR.new tmin
                  (s0.hit r (IntervalR.new tmin closest) HitRecordR.default).2.t)
                  HitRecordR.default).1 = true := by rw [hshrink]
              rw [hall s' hmem'] at hx
              exact Bool.noConfusion hx
      · -- the head misses: recurse on the tail with the same window
        have hs0f : (s0.hit r (IntervalR.new tmin closest) HitRecordR.default).1 = false := by
          simpa using hs0
        have hs0t : (s0.hit r (IntervalR.new tmin closest) temp).1 = false := by
          rw [sphere_hit_flag_irrel s0 r (IntervalR.new tmin closest) temp HitRecordR.default]
          exact hs0f
        have hstep : hitLoop r tmin (s0 :: rest) (flag, closest, temp, rec)
            = hitLoop r tmin rest (flag, closest, temp, rec) := by
          rw [hitLoop_cons, if_neg (by rw [hs0t]; simp),
            sphere_hit_miss_preserves s0 r (IntervalR.new tmin closest) temp hs0t]
        have hex' : ∃ sx ∈ rest,
            (sx.hit r (IntervalR.new tmin closest) HitRecordR.default).1 = true := by
          obtain ⟨sx, hx, hhx⟩ := hex
          rcases List.mem_cons.mp hx with rfl | hx'
          · rw [hs0f] at hhx
            exact Bool.noConfusion hhx
          · exact ⟨sx, hx', hhx⟩
        obtain ⟨sStar, hmem, hsStar, heq, hmin⟩ := (ih closest flag temp rec).2 hex'
        refine ⟨sStar, List.mem_cons_of_mem s0 hmem, hsStar, ?_, ?_⟩
        · rw [hstep, heq]
        · intro s' hs' hhit'
          rcases List.mem_cons.mp hs' with rfl | hmem'
          · rw [hs0f] at hhit'
            exact Bool.noConfusion hhit'
          · exact hmin s' hmem' hhit'

/-- Repackaging of `hitLoop_correct` at the top-level entry
`HittableList::hit`: hit-iff-some-member-hits, the returned record is a
member's solo record, and its `t` is minimal among members' accepted
`t`s. -/
theorem list_hit_spec (r : RayR) (ray_t : IntervalR) (ha : 0 < r.direction.squared_length)
    (l : List SphereR) (rec0 : HitRecordR) :
    (((HittableList.hit l r ray_t rec0).1 = true) ↔
      ∃ s ∈ l, (s.hit r ray_t HitRecordR.default).1 = true)
    ∧ ((HittableList.hit l r ray_t rec0).1 = true →
        ∃ s ∈ l, s.hit r ray_t HitRecordR.default
          = (true, (HittableList.hit l r ray_t rec0).2))
    ∧ ((HittableList.hit l r ray_t rec0).1 = true →
        ∀ s ∈ l, (s.hit r ray_t HitRecordR.default).1 = true →
          (HittableList.hit l r ray_t rec0).2.t ≤ (s.hit r ray_t HitRecordR.default).2.t) := by
  have hinv := hitLoop_correct r ray_t.min ha l ray_t.max false HitRecordR.default rec0
  rw [show IntervalR.new ray_t.min ray_t.max = ray_t from rfl] at hinv
  by_cases hex : ∃ s ∈ l, (s.hit r ray_t HitRecordR.default).1 = true
  · obtain ⟨sStar, hmem, hsStar, heq, hmin⟩ := hinv.2 hex
    have hflag : (HittableList.hit l r ray_t rec0).1 = true := by
      show (hitLoop r ray_t.min l (false, ray_t.max, HitRecordR.default, rec0)).1 = true
      rw [heq]
    have hrec2 : (HittableList.hit l r ray_t rec0).2
        = (sStar.hit r ray_t HitRecordR.default).2 := by
      show (hitLoop r ray_t.min l (false, ray_t.max, HitRecordR.default, rec0)).2.2.2
        = (sStar.hit r ray_t HitRecordR.default).2
      rw [heq]
    refine ⟨⟨fun _ => hex, fun _ => hflag⟩, fun _ => ⟨sStar, hmem, ?_⟩, fun _ => ?_⟩
    · rw [hrec2]
      exact Prod.ext hsStar rfl
    · intro s hs hhit
      rw [hrec2]
      exact hmin s hs hhit
  · have hall : ∀ s ∈ l, (s.hit r ray_t HitRecordR.default).1 = false := by
      push_neg at hex
      intro s hs
      simpa using hex s hs
    have hflag : (HittableList.hit l r ray_t rec0).1 = false := by
      show (hitLoop r ray_t.min l (false, ray_t.max, HitRecordR.default, rec0)).1 = false
      rw [hinv.1 hall]
    refine ⟨⟨fun hcon => ?_, fun hcon => absurd hcon hex⟩,
      fun hcon => ?_, fun hcon => ?_⟩ <;>
    · rw [hflag] at hcon
      exact Bool.noConfusion hcon

/-- Claim C2: `HittableList::hit` returns true iff at least one member
reports a hit on the query interval; the record it leaves is the one the
winning member itself produces on that interval, with the smallest
accepted `t` among all members that hit; and for two spheres the result
is independent of insertion order. -/
theorem list_hit_nearest (l : List SphereR) (r : RayR) (ray_t : IntervalR)
    (rec0 : HitRecordR) (ha : 0 < r.direction.squared_length) :
    (((HittableList.hit l r ray_t rec0).1 = true) ↔
      ∃ s ∈ l, (s.hit r ray_t HitRecordR.default).1 = true)
    ∧ ((HittableList.hit l r ray_t rec0).1 = true →
        ∃ s ∈ l, s.hit r ray_t HitRecordR.default
          = (true, (HittableList.hit l r ray_t rec0).2))
    ∧ ((HittableList.hit l r ray_t rec0).1 = true →
        ∀ s ∈ l, (s.hit r ray_t HitRecordR.default).1 = true →
          (HittableList.hit l r ray_t rec0).2.t ≤ (s.hit r ray_t HitRecordR.default).2.t)
    ∧ (∀ s1 s2 : SphereR, ∀ rec1 : HitRecordR,
        (HittableList.hit [s1, s2] r ray_t rec0).1
          = (HittableList.hit [s2, s1] r ray_t rec1).1
        ∧ ((HittableList.hit [s1, s2] r ray_t rec0).1 = true →
            (HittableList.hit [s1, s2] r ray_t rec0).2.t
              = (HittableList.hit [s2, s1] r ray_t rec1).2.t)) := by
  obtain ⟨h1, h2, h3⟩ := list_hit_spec r ray_t ha l rec0
  refine ⟨h1, h2, h3, ?_⟩
  intro s1 s2 rec1
  obtain ⟨g1, g2, g3⟩ := list_hit_spec r ray_t ha [s1, s2] rec0
  obtain ⟨k1, k2, k3⟩ := list_hit_spec r ray_t ha [s2, s1] rec1
  have hswap : ∀ (a b sx : SphereR), sx ∈ [a, b] → sx ∈ [b, a] := by
    intro a b sx hs
    rcases List.mem_cons.mp hs with rfl | hs'
    · exact List.mem_cons_of_mem b (List.mem_cons_self sx [])
    · rcases List.mem_cons.mp hs' with rfl | hs''
      · exact List.mem_cons_self sx [a]
      · exact absurd hs'' (List.not_mem_nil sx)
  have hfiff : (HittableList.hit [s1, s2] r ray_t rec0).1 = true ↔
      (HittableList.hit [s2, s1] r ray_t rec1).1 = true := by
    rw [g1, k1]
    constructor
    · rintro ⟨s, hs, hh⟩
      exact ⟨s, hswap s1 s2 s hs, hh⟩
    · rintro ⟨s, hs, hh⟩
      exact ⟨s, hswap s2 s1 s hs, hh⟩
  have hfeq : (HittableList.hit [s1, s2] r ray_t rec0).1
      = (HittableList.hit [s2, s1] r ray_t rec1).1 := by
    cases h12 : (HittableList.hit [s1, s2] r ray_t rec0).1
    · cases h21 : (HittableList.hit [s2, s1] r ray_t rec1).1
      · rfl
      · rw [hfiff.mpr h21] at h12
        exact Bool.noConfusion h12
    · rw [hfiff.mp h12]
  refine ⟨hfeq, ?_⟩
  intro h12
  have h21 : (HittableList.hit [s2, s1] r ray_t rec1).1 = true := by
    rw [← hfeq]
    exact h12
  obtain ⟨sa, hsa, hea⟩ := g2 h12
  obtain ⟨sb, hsb, heb⟩ := k2 h21
  have hta : (sa.hit r ray_t HitRecordR.default).1 = true := by rw [hea]
  have htb : (sb.hit r ray_t HitRecordR.default).1 = true := by rw [heb]
  have hle1 := k3 h21 sa (hswap s1 s2 sa hsa) hta
  have hle2 := g3 h12 sb (hswap s2 s1 sb hsb) htb
  rw [hea] at hle1
  rw [heb] at hle2
  exact le_antisymm hle2 hle1

/-- Witness for `list_hit_nearest` at a concrete one-sphere scene. -/
theorem list_hit_nearest_witness :
    ((HittableList.hit [wSphere] wRay wInterval recW).1 = true ↔
      ∃ s ∈ [wSphere], (s.hit wRay wInterval HitRecordR.default).1 = true) :=
  (list_hit_nearest [wSphere] wRay wInterval recW
    (by norm_num [Vec3R.squared_length, wRay])).1
